import Mathlib

/-!
Shallow embedding of the active-perception camera system
(`src/uncertainty.py`, `src/loop.py`, `src/policy.py`).

Conventions of the embedding:
* Python floats are modelled as rationals (`ℚ`).
* A frame is abstracted by the only quantity the core ever derives from it:
  its Laplacian variance (the sharpness proxy computed by
  `UncertaintyEngine._compute_sharpness`), plus nothing else.  A possibly-null
  frame is `Option Frame`.
* A detected contour is abstracted by its pixel area, the only quantity the
  core derives from it (`cv2.contourArea(corners[0])`).  The `corners`
  argument of `compute` is `Option (List Contour)`: Python distinguishes
  `None` from an empty list, and so does the code
  (`corners is not None and len(corners) > 0`).
* The exploration ledger (`self.exploration_results`, a Python `dict` keyed
  by small integers) is an insertion-ordered association list with the exact
  dict update semantics (`dictInsert`).
* All modelled functions are total, as the modelled code paths raise no
  exceptions.
-/

/-- Abstraction of an image frame: the Laplacian variance that
`_compute_sharpness` extracts from it. -/
structure Frame where
  laplacianVar : ℚ
deriving DecidableEq

/-- Abstraction of a detected marker contour: its pixel area as computed by
`cv2.contourArea`. -/
structure Contour where
  area : ℚ
deriving DecidableEq

/-- Model of the `UncertaintyEngine.__init__` threshold parameters. -/
structure UncertaintyEngine where
  sLow : ℚ
  sHigh : ℚ
  aLow : ℚ
  aHigh : ℚ
deriving DecidableEq

/-- The default thresholds: `sharpness_low=20.0, sharpness_high=300.0,
size_low=800.0, size_high=100000`. -/
def defaultEngine : UncertaintyEngine :=
  ⟨20, 300, 800, 100000⟩

/-- Model of `UncertaintyEngine._compute_sharpness`: returns 0.0 for a `None` frame,
otherwise the Laplacian variance of the (grayscale) frame. -/
def computeSharpness (frame : Option Frame) : ℚ :=
  match frame with
  | none => 0
  | some f => f.laplacianVar

/-- Model of `UncertaintyEngine._normalize`: map value to the 0.0–1.0 range based on
thresholds.  Branches in source order: `value <= low` first, then
`value >= high`, else the linear interpolation. -/
def UncertaintyEngine.normalize (value low high : ℚ) : ℚ :=
  if value ≤ low then 0
  else if high ≤ value then 1
  else (value - low) / (high - low)

/-- The metrics dict returned by `UncertaintyEngine.compute`. -/
structure Metrics where
  detected : Bool
  sharpnessRaw : ℚ
  sizeRaw : ℚ
  qSharpness : ℚ
  qSize : ℚ
deriving DecidableEq

/-- Model of `UncertaintyEngine.compute`: uncertainty score (0.0–1.0) plus metrics.
`detected` is `corners is not None and len(corners) > 0`; `area_val` is
`cv2.contourArea(corners[0])` when detected and `0.0` otherwise (the match on
`some (c :: _)` covers exactly the detected case). -/
def UncertaintyEngine.compute (e : UncertaintyEngine) (frame : Option Frame)
    (corners : Option (List Contour)) : ℚ × Metrics :=
  let sharpnessVal := computeSharpness frame
  let detected : Bool :=
    match corners with
    | none => false
    | some cs => decide (0 < cs.length)
  let areaVal : ℚ :=
    match corners with
    | some (c :: _) => c.area
    | _ => 0
  let qSharpness := UncertaintyEngine.normalize sharpnessVal e.sLow e.sHigh
  let qSize := UncertaintyEngine.normalize areaVal e.aLow e.aHigh
  let score : ℚ :=
    if detected then
      1/10 + (1 - qSharpness) * (4/10) + (1 - qSize) * (4/10)
    else
      9/10
  let score := max 0 (min 1 score)
  (score, ⟨detected, sharpnessVal, areaVal, qSharpness, qSize⟩)

/-- Model of `TemporalSmoother`: a bounded deque (`deque(maxlen=window_size)`) of raw
scores. -/
structure TemporalSmoother where
  windowSize : ℕ
  history : List ℚ
deriving DecidableEq

/-- Model of `TemporalSmoother.update`: append the new value to the deque (evicting the
oldest element first when the deque is at capacity, which is what
`deque(maxlen=w).append` does) and return the arithmetic mean of the
contents. -/
def TemporalSmoother.update (s : TemporalSmoother) (v : ℚ) :
    TemporalSmoother × ℚ :=
  let h0 := if s.history.length = s.windowSize then s.history.tail else s.history
  let h := h0 ++ [v]
  (⟨s.windowSize, h⟩, h.sum / h.length)

/-- Feed a list of raw scores through the smoother, returning the final
smoother state and the last returned mean (0 if no value was fed). -/
def TemporalSmoother.feedAll (s : TemporalSmoother) (vs : List ℚ) :
    TemporalSmoother × ℚ :=
  vs.foldl (fun acc v => acc.1.update v) (s, 0)

/-- The controller state label (`self.state`, a string in the source:
"MONITOR" or "EXPLORE"). -/
inductive Mode where
  | MONITOR
  | EXPLORE
deriving DecidableEq

/-- Model of `ActionPolicy.exposure_levels`: the discrete action space. -/
def exposureLevels : List ℤ := [-8, -7, -6, -5, -4, -3, -2]

/-- Size of the action space (`len(self.policy.exposure_levels)`). -/
def numExposureLevels : ℕ := exposureLevels.length

/-- Python dict assignment `d[k] = v` on an insertion-ordered association
list: overwrite in place if the key is present, otherwise append. -/
def dictInsert (l : List (ℕ × ℚ)) (k : ℕ) (v : ℚ) : List (ℕ × ℚ) :=
  if l.any (fun p => p.1 = k) then
    l.map (fun p => if p.1 = k then (k, v) else p)
  else l ++ [(k, v)]

/-- Python `min` over a list of rationals (`none` on an empty list, where
Python would raise). -/
def optMin : List ℚ → Option ℚ
  | [] => none
  | x :: xs => some (xs.foldl min x)

/-- Python `max` over a list of naturals (`none` on an empty list, where
Python would raise). -/
def optMaxNat : List ℕ → Option ℕ
  | [] => none
  | x :: xs => some (xs.foldl max x)

/-- The ledger-resolution computation inside
`ActivePerceptionLoop._apply_best_action`, lines 159–168:
`min_score = min(values)`; `candidates = [idx for idx, score in items if
abs(score - min_score) < 0.01]`; `best_idx = max(candidates)`.
Returns `none` exactly when the ledger is empty (where the Python `min`
would fail; the caller guards that case). -/
def resolveLedger (l : List (ℕ × ℚ)) : Option ℕ :=
  match optMin (l.map Prod.snd) with
  | none => none
  | some minScore =>
    optMaxNat ((l.filter (fun p => |p.2 - minScore| < 1/100)).map Prod.fst)

/-- The mutable controller fields of `ActivePerceptionLoop` that the tick
logic reads or writes. -/
structure LoopState where
  state : Mode
  currentExposureIdx : ℕ
  explorationResults : List (ℕ × ℚ)
  exploreStep : ℕ
  baselineBrightness : Option ℚ
  frameCount : ℕ
  ignoreUntilFrame : ℕ
deriving DecidableEq

/-- The initial controller state set up by `ActivePerceptionLoop.__init__`:
MONITOR, exposure index 2, empty ledger, no baseline, frame 0, no
stabilization gate. -/
def initState : LoopState :=
  { state := Mode.MONITOR
    currentExposureIdx := 2
    explorationResults := []
    exploreStep := 0
    baselineBrightness := none
    frameCount := 0
    ignoreUntilFrame := 0 }

/-- Constant `TRIGGER_THRESHOLD = 0.6` from `_update_state_machine`. -/
def TRIGGER_THRESHOLD : ℚ := 6/10

/-- Model of `ActivePerceptionLoop._apply_best_action`: on an empty ledger it returns
immediately with no state change (the `if not self.exploration_results:
return` guard).  Otherwise it resolves the winner (min score, ε-candidates,
max index), issues the actuator command (a pure side effect, not part of the
state), sets `current_exposure_idx`, clears the brightness baseline, and
sets `ignore_until_frame = frame_count + 10`.  The inner `none` branch of the
match is unreachable for a non-empty ledger. -/
def applyBestAction (s : LoopState) : LoopState :=
  if s.explorationResults.isEmpty then s
  else
    match resolveLedger s.explorationResults with
    | none => s
    | some bestIdx =>
      { s with
        currentExposureIdx := bestIdx
        baselineBrightness := none
        ignoreUntilFrame := s.frameCount + 10 }

/-- Model of `ActivePerceptionLoop._update_state_machine(uncertainty,
current_brightness)`.  MONITOR: stabilization gate, baseline capture,
environment-change detection against `max(baseline * 0.10, 5.0)` (the ratio
`self.brightness_change_ratio = 0.10` from `__init__`), and the trigger rule
(uncertainty above threshold AND environment changed).  EXPLORE: record the
current step's score in the ledger, advance the step, and either finish the
sweep (apply best action, back to MONITOR) or issue the next exposure (a pure
actuator side effect). -/
def updateStateMachine (s : LoopState) (uncertainty currentBrightness : ℚ) :
    LoopState :=
  if s.state = Mode.MONITOR then
    if s.frameCount < s.ignoreUntilFrame then s
    else
      let baselineVal := s.baselineBrightness.getD currentBrightness
      let s1 := { s with baselineBrightness := some baselineVal }
      let diff := |currentBrightness - baselineVal|
      let dynamicThreshold := max (baselineVal * (1/10)) 5
      if TRIGGER_THRESHOLD < uncertainty ∧ dynamicThreshold < diff then
        { s1 with
          state := Mode.EXPLORE
          exploreStep := 0
          explorationResults := []
          baselineBrightness := none }
      else s1
  else
    let currentIdx := s.exploreStep
    let results := dictInsert s.explorationResults currentIdx uncertainty
    let s1 := { s with explorationResults := results, exploreStep := s.exploreStep + 1 }
    if numExposureLevels ≤ s1.exploreStep then
      { applyBestAction s1 with state := Mode.MONITOR }
    else
      s1

/-- One iteration of `ActivePerceptionLoop.run`'s while-loop, restricted to
the controller state: increment `frame_count`, then run the state machine on
the smoothed uncertainty and the frame's mean brightness. -/
def tick (s : LoopState) (uncertainty brightness : ℚ) : LoopState :=
  updateStateMachine { s with frameCount := s.frameCount + 1 } uncertainty brightness

/-- Run a sequence of ticks, each input being a pair
(smoothed uncertainty, mean brightness). -/
def runTicks (s : LoopState) (inputs : List (ℚ × ℚ)) : LoopState :=
  inputs.foldl (fun st p => tick st p.1 p.2) s

/-- The actuator commands issued by one tick of the state machine, as the
ordered list of level indices passed to `ActionPolicy.execute_exposure`
(each such call sets the corresponding exposure value on the camera, a pure
hardware side effect not recorded in `LoopState`).  A MONITOR tick issues no
command; an EXPLORE tick that continues the sweep issues the next step's
index (loop.py:150); an EXPLORE tick that completes the sweep issues the
command `_apply_best_action` makes for the resolved winner (loop.py:173),
behind the same empty-ledger guard and resolution as `applyBestAction`.
Brightness plays no role in which commands are issued. -/
def tickCommands (s : LoopState) (uncertainty : ℚ) : List ℕ :=
  if s.state = Mode.MONITOR then []
  else
    let results := dictInsert s.explorationResults s.exploreStep uncertainty
    if numExposureLevels ≤ s.exploreStep + 1 then
      if results.isEmpty then []
      else
        match resolveLedger results with
        | none => []
        | some bestIdx => [bestIdx]
    else [s.exploreStep + 1]

/-- The candidate index set of the resolve algorithm: indices whose recorded
score is within ε = 0.01 of the minimum `m`. -/
def candidateKeys (l : List (ℕ × ℚ)) (m : ℚ) : List ℕ :=
  (l.filter (fun p => |p.2 - m| < 1/100)).map Prod.fst

theorem foldl_min_mem {α : Type} [LinearOrder α] (xs : List α) (x : α) :
    xs.foldl min x ∈ x :: xs := by
  induction xs generalizing x with
  | nil => simp
  | cons y ys ih =>
    simp only [List.foldl_cons]
    rcases List.mem_cons.mp (ih (min x y)) with h1 | h1
    · rcases min_choice x y with h2 | h2
      · rw [h1, h2]; exact List.mem_cons_self _ _
      · rw [h1, h2]; exact List.mem_cons_of_mem _ (List.mem_cons_self _ _)
    · exact List.mem_cons_of_mem _ (List.mem_cons_of_mem _ h1)

theorem foldl_min_le {α : Type} [LinearOrder α] (xs : List α) (x : α) :
    ∀ y ∈ x :: xs, xs.foldl min x ≤ y := by
  induction xs generalizing x with
  | nil =>
    intro y hy
    rcases List.mem_cons.mp hy with h | h
    · simp [h]
    · simp at h
  | cons z zs ih =>
    intro y hy
    simp only [List.foldl_cons]
    rcases List.mem_cons.mp hy with h1 | h1
    · rw [h1]
      exact le_trans (ih (min x z) _ (List.mem_cons_self _ _)) (min_le_left _ _)
    · rcases List.mem_cons.mp h1 with h2 | h2
      · rw [h2]
        exact le_trans (ih (min x z) _ (List.mem_cons_self _ _)) (min_le_right _ _)
      · exact ih (min x z) _ (List.mem_cons_of_mem _ h2)

theorem foldl_max_mem {α : Type} [LinearOrder α] (xs : List α) (x : α) :
    xs.foldl max x ∈ x :: xs := by
  induction xs generalizing x with
  | nil => simp
  | cons y ys ih =>
    simp only [List.foldl_cons]
    rcases List.mem_cons.mp (ih (max x y)) with h1 | h1
    · rcases max_choice x y with h2 | h2
      · rw [h1, h2]; exact List.mem_cons_self _ _
      · rw [h1, h2]; exact List.mem_cons_of_mem _ (List.mem_cons_self _ _)
    · exact List.mem_cons_of_mem _ (List.mem_cons_of_mem _ h1)

theorem foldl_max_ge {α : Type} [LinearOrder α] (xs : List α) (x : α) :
    ∀ y ∈ x :: xs, y ≤ xs.foldl max x := by
  induction xs generalizing x with
  | nil =>
    intro y hy
    rcases List.mem_cons.mp hy with h | h
    · simp [h]
    · simp at h
  | cons z zs ih =>
    intro y hy
    simp only [List.foldl_cons]
    rcases List.mem_cons.mp hy with h1 | h1
    · rw [h1]
      exact le_trans (le_max_left _ _) (ih (max x z) _ (List.mem_cons_self _ _))
    · rcases List.mem_cons.mp h1 with h2 | h2
      · rw [h2]
        exact le_trans (le_max_right _ _) (ih (max x z) _ (List.mem_cons_self _ _))
      · exact ih (max x z) _ (List.mem_cons_of_mem _ h2)

theorem optMin_spec (l : List ℚ) (h : l ≠ []) :
    ∃ m, optMin l = some m ∧ m ∈ l ∧ ∀ y ∈ l, m ≤ y := by
  match l with
  | [] => exact absurd rfl h
  | x :: xs =>
    exact ⟨xs.foldl min x, rfl, foldl_min_mem xs x, foldl_min_le xs x⟩

theorem optMaxNat_spec (l : List ℕ) (h : l ≠ []) :
    ∃ w, optMaxNat l = some w ∧ w ∈ l ∧ ∀ y ∈ l, y ≤ w := by
  match l with
  | [] => exact absurd rfl h
  | x :: xs =>
    exact ⟨xs.foldl max x, rfl, foldl_max_mem xs x, foldl_max_ge xs x⟩

theorem resolveLedger_spec (l : List (ℕ × ℚ)) (h : l ≠ []) :
    ∃ m w, optMin (l.map Prod.snd) = some m ∧ resolveLedger l = some w ∧
      w ∈ candidateKeys l m ∧ ∀ i ∈ candidateKeys l m, i ≤ w := by
  have hne : l.map Prod.snd ≠ [] := by
    intro hnil
    exact h (List.map_eq_nil_iff.mp hnil)
  obtain ⟨m, hm, hmem, _⟩ := optMin_spec (l.map Prod.snd) hne
  obtain ⟨p, hp, hps⟩ := List.mem_map.mp hmem
  have hpf : p ∈ l.filter (fun p => |p.2 - m| < 1/100) := by
    refine List.mem_filter.mpr ⟨hp, ?_⟩
    simp [hps]
  have hcne : candidateKeys l m ≠ [] := by
    unfold candidateKeys
    intro hnil
    have : p.1 ∈ ([] : List ℕ) := hnil ▸ List.mem_map_of_mem Prod.fst hpf
    simp at this
  obtain ⟨w, hw, hwmem, hwub⟩ := optMaxNat_spec (candidateKeys l m) hcne
  refine ⟨m, w, hm, ?_, hwmem, hwub⟩
  unfold resolveLedger
  rw [hm]
  exact hw

/-- C9: `_normalize` is total for every combination of value, low, high.  As
stated the claim is false: the branches are ordered, so when
`value ≤ low` and `value ≥ high` hold together (possible when `low ≥ high`),
the function returns 0, not 1.  Concretely `_normalize(5, 5, 5) = 0` although
`5 ≥ high`. -/
theorem C9_counterexample :
    (5:ℚ) ≥ 5 ∧ UncertaintyEngine.normalize 5 5 5 = 0 ∧
      UncertaintyEngine.normalize 5 5 5 ≠ 1 := by
  refine ⟨le_refl 5, by simp [UncertaintyEngine.normalize], by simp [UncertaintyEngine.normalize]⟩

/-- C9 (amended): `_normalize` is total: it returns 0 when `value ≤ low`;
it returns 1 when `value ≥ high` provided `value > low` (the first branch has
priority); the dividing branch `(value-low)/(high-low)` is reached only when
`low < value < high`, where the divisor is nonzero (so no division by zero
occurs even when `low == high`, that branch being unreachable then); and the
result always lies in [0,1]. -/
theorem C9_normalize_total (v low high : ℚ) :
    (v ≤ low → UncertaintyEngine.normalize v low high = 0) ∧
    (low < v → high ≤ v → UncertaintyEngine.normalize v low high = 1) ∧
    (¬ v ≤ low → ¬ high ≤ v →
      low < v ∧ v < high ∧ high - low ≠ 0 ∧
      UncertaintyEngine.normalize v low high = (v - low) / (high - low)) ∧
    0 ≤ UncertaintyEngine.normalize v low high ∧
    UncertaintyEngine.normalize v low high ≤ 1 := by
  refine ⟨?_, ?_, ?_, ?_⟩
  · intro h
    simp [UncertaintyEngine.normalize, h]
  · intro h1 h2
    have h3 : ¬ v ≤ low := not_le.mpr h1
    simp [UncertaintyEngine.normalize, h3, h2]
  · intro h1 h2
    have hlv : low < v := not_le.mp h1
    have hvh : v < high := not_le.mp h2
    refine ⟨hlv, hvh, by linarith, ?_⟩
    simp [UncertaintyEngine.normalize, h1, h2]
  · unfold UncertaintyEngine.normalize
    split_ifs with h1 h2
    · norm_num
    · norm_num
    · have hlv : low < v := not_le.mp h1
      have hvh : v < high := not_le.mp h2
      have hpos : (0:ℚ) < high - low := by linarith
      constructor
      · exact div_nonneg (by linarith) (le_of_lt hpos)
      · rw [div_le_one hpos]
        linarith

/-- C9 witness: the amended theorem applied at `(10, 20, 300)`, where the
first branch yields 0. -/
theorem C9_witness : UncertaintyEngine.normalize 10 20 300 = 0 :=
  (C9_normalize_total 10 20 300).1 (by norm_num)

/-- C5: for every engine configuration and every frame, when the detection
result is absent (`corners is None`) or empty, `compute` returns exactly 0.9,
regardless of the sharpness or area metrics. -/
theorem C5_no_detection_score (e : UncertaintyEngine) (frame : Option Frame)
    (corners : Option (List Contour))
    (h : corners = none ∨ corners = some []) :
    (e.compute frame corners).1 = 9/10 := by
  rcases h with h | h <;> subst h <;>
    simp [UncertaintyEngine.compute] <;> norm_num

/-- C5 witness: the no-detection score at the default engine with a null
frame and absent corners. -/
theorem C5_witness : (defaultEngine.compute none none).1 = 9/10 :=
  C5_no_detection_score defaultEngine none none (Or.inl rfl)

/-- C6: with a detection present, the score is
`0.1 + 0.4*(1 - qualitySharpness) + 0.4*(1 - qualitySize)` clamped to [0,1];
and for all inputs (detected or not) the returned score lies in [0,1]. -/
theorem C6_detected_formula (e : UncertaintyEngine) (frame : Option Frame)
    (corners : Option (List Contour)) :
    ((e.compute frame corners).2.detected = true →
      (e.compute frame corners).1 =
        max 0 (min 1 (1/10 + (4/10) * (1 - (e.compute frame corners).2.qSharpness)
          + (4/10) * (1 - (e.compute frame corners).2.qSize)))) ∧
    0 ≤ (e.compute frame corners).1 ∧ (e.compute frame corners).1 ≤ 1 := by
  refine ⟨?_, ?_, ?_⟩
  · intro hdet
    rcases corners with _ | cs
    · simp [UncertaintyEngine.compute] at hdet
    · rcases cs with _ | ⟨c, cs⟩
      · simp [UncertaintyEngine.compute] at hdet
      · simp only [UncertaintyEngine.compute]
        rw [if_pos (show decide (0 < (c :: cs).length) = true by simp)]
        congr 2
        ring
  · simp only [UncertaintyEngine.compute]
    exact le_max_left 0 _
  · simp only [UncertaintyEngine.compute]
    exact max_le (by norm_num) (min_le_left 1 _)

/-- C6 witness: a concrete detected input (default engine, sharp frame,
large marker) evaluating the clamped formula, with the score in range. -/
theorem C6_witness :
    (defaultEngine.compute (some ⟨300⟩) (some [⟨100000⟩])).2.detected = true ∧
    (defaultEngine.compute (some ⟨300⟩) (some [⟨100000⟩])).1 =
      max 0 (min 1 (1/10 + (4/10) *
        (1 - (defaultEngine.compute (some ⟨300⟩) (some [⟨100000⟩])).2.qSharpness)
        + (4/10) *
        (1 - (defaultEngine.compute (some ⟨300⟩) (some [⟨100000⟩])).2.qSize))) :=
  ⟨by decide, (C6_detected_formula defaultEngine (some ⟨300⟩) (some [⟨100000⟩])).1 (by decide)⟩

/-- C8: the claim says a null frame makes `compute` take the undetected
branch for every detection result.  False: detection is decided by `corners`
alone.  With a null frame and a detected large marker (area 100000), the
detected branch runs (sharpness 0 ⇒ qualitySharpness 0), giving score
0.1 + 0.4 + 0 = 0.5, not the no-detection score 0.9. -/
theorem C8_counterexample :
    (defaultEngine.compute none (some [⟨100000⟩])).2.detected = true ∧
    (defaultEngine.compute none (some [⟨100000⟩])).1 = 1/2 ∧
    ((1:ℚ)/2 ≠ 9/10) := by
  refine ⟨by decide, ?_, by norm_num⟩
  norm_num [UncertaintyEngine.compute, defaultEngine, computeSharpness,
    UncertaintyEngine.normalize]

/-- C8 (amended): `compute` never throws for a null frame — it is a total
function, the raw sharpness metric evaluates to 0 (`_compute_sharpness`'s
`None` guard), and when the detection result is additionally absent or empty
it takes the undetected branch, returning the no-detection score 0.9. -/
theorem C8_null_frame_total (e : UncertaintyEngine)
    (corners : Option (List Contour)) :
    (e.compute none corners).2.sharpnessRaw = 0 ∧
    ((corners = none ∨ corners = some []) →
      (e.compute none corners).2.detected = false ∧
      (e.compute none corners).1 = 9/10) := by
  constructor
  · rcases corners with _ | cs
    · simp [UncertaintyEngine.compute, computeSharpness]
    · rcases cs with _ | ⟨c, cs⟩ <;>
        simp [UncertaintyEngine.compute, computeSharpness]
  · intro h
    rcases h with h | h <;> subst h <;>
      refine ⟨by simp [UncertaintyEngine.compute], ?_⟩ <;>
      simp [UncertaintyEngine.compute] <;> norm_num

/-- C8 witness: the amended theorem applied at the default engine with a
null frame and absent corners. -/
theorem C8_witness :
    (defaultEngine.compute none none).2.detected = false ∧
    (defaultEngine.compute none none).1 = 9/10 :=
  (C8_null_frame_total defaultEngine none).2 (Or.inl rfl)

/-- C1: the claim says `_apply_best_action` on an empty ledger fails with an
EmptyLedger condition rather than returning normally with the state
unchanged.  False: the source guard `if not self.exploration_results:
return` returns normally, leaving the state untouched; the embedded function
is total, and at the concrete empty-ledger state the call is the
identity. -/
theorem C1_counterexample : applyBestAction initState = initState := by
  decide

/-- C1 (amended): if `_apply_best_action` is called when no entries have been
recorded, it silently returns with the controller state unchanged (a no-op
guard); no EmptyLedger error condition is signaled. -/
theorem C1_empty_ledger_noop (s : LoopState)
    (h : s.explorationResults = []) : applyBestAction s = s := by
  simp [applyBestAction, h]

/-- C1 witness: the amended no-op theorem at a concrete empty-ledger state
distinct from the initial one. -/
theorem C1_witness :
    applyBestAction ⟨Mode.MONITOR, 5, [], 3, some 7, 42, 0⟩ =
      ⟨Mode.MONITOR, 5, [], 3, some 7, 42, 0⟩ :=
  C1_empty_ledger_noop ⟨Mode.MONITOR, 5, [], 3, some 7, 42, 0⟩ rfl

/-- C3: on every non-empty ledger, resolve finds the minimum recorded score
`m`, forms the candidate set of indices whose score is within ε = 0.01 of
`m`, and returns the maximum candidate; in particular the ledger
`{0:0.50, 1:0.50, 2:0.52}` resolves to index 1, not index 2. -/
theorem C3_resolve_min_tiebreak :
    (∀ l : List (ℕ × ℚ), l ≠ [] →
      ∃ m w, optMin (l.map Prod.snd) = some m ∧ resolveLedger l = some w ∧
        w ∈ candidateKeys l m ∧ ∀ i ∈ candidateKeys l m, i ≤ w) ∧
    resolveLedger [(0, 50/100), (1, 50/100), (2, 52/100)] = some 1 :=
  ⟨resolveLedger_spec, by
    have hd : decide (|(1:ℚ)/50| < 1/100) = false := by
      rw [decide_eq_false_iff_not, abs_of_nonneg (by norm_num : (0:ℚ) ≤ 1/50)]
      norm_num
    norm_num [resolveLedger, optMin, optMaxNat, List.filter]
    rw [hd]
    rfl⟩

/-- C3 witness: the general resolve characterization applied to a concrete
two-entry ledger. -/
theorem C3_witness :
    ∃ m w, optMin ([(0, (1:ℚ)/2), (3, 1)].map Prod.snd) = some m ∧
      resolveLedger [(0, (1:ℚ)/2), (3, 1)] = some w ∧
      w ∈ candidateKeys [(0, (1:ℚ)/2), (3, 1)] m ∧
      ∀ i ∈ candidateKeys [(0, (1:ℚ)/2), (3, 1)] m, i ≤ w :=
  C3_resolve_min_tiebreak.1 [(0, (1:ℚ)/2), (3, 1)] (by decide)

/-- C7: `TemporalSmoother.update` appends the new value, evicts the oldest
exactly when the window is at capacity, keeps the window length bounded by
`W`, and returns the arithmetic mean of the window contents; in particular a
window-5 smoother fed five 0.9s returns 0.9, and a 6th value evicts the
first (the window stays at five elements, FIFO). -/
theorem C7_smoother_fifo (s : TemporalSmoother) (v : ℚ)
    (hlen : s.history.length ≤ s.windowSize) (hw : 0 < s.windowSize) :
    ((s.update v).1.windowSize = s.windowSize ∧
     (s.update v).1.history =
       (if s.history.length = s.windowSize then s.history.tail
        else s.history) ++ [v] ∧
     (s.update v).1.history.length ≤ s.windowSize ∧
     (s.update v).2 =
       (s.update v).1.history.sum / (s.update v).1.history.length) ∧
    (TemporalSmoother.feedAll ⟨5, []⟩
      [9/10, 9/10, 9/10, 9/10, 9/10]).2 = 9/10 ∧
    (TemporalSmoother.feedAll ⟨5, []⟩
      [9/10, 9/10, 9/10, 9/10, 9/10, 2/5]).1.history =
      [9/10, 9/10, 9/10, 9/10, 2/5] := by
  refine ⟨⟨rfl, rfl, ?_, rfl⟩, ?_, ?_⟩
  · by_cases h : s.history.length = s.windowSize
    · simp [TemporalSmoother.update, h]
      omega
    · simp [TemporalSmoother.update, h]
      omega
  · norm_num [TemporalSmoother.feedAll, TemporalSmoother.update]
  · norm_num [TemporalSmoother.feedAll, TemporalSmoother.update]

/-- C7 witness: the update characterization applied to a concrete window-5
smoother holding one value. -/
theorem C7_witness :
    ((⟨5, [9/10]⟩ : TemporalSmoother).update (1/2)).2 =
      ((⟨5, [9/10]⟩ : TemporalSmoother).update (1/2)).1.history.sum /
        ((⟨5, [9/10]⟩ : TemporalSmoother).update (1/2)).1.history.length :=
  ((C7_smoother_fifo ⟨5, [9/10]⟩ (1/2) (by decide) (by decide)).1).2.2.2

/-- C2: in MONITOR state a tick transitions to EXPLORE only if both
`smoothedUncertainty > 0.6` and the environment changed, where env change
means `|currentBrightness - baseline| > max(baseline * 0.10, 5.0)` against
the effective baseline (the stored one, or the just-captured current
brightness); and whenever the env-change condition fails the state remains
MONITOR for every uncertainty value, in particular 0.8. -/
theorem C2_monitor_trigger :
    (∀ (s : LoopState) (u b : ℚ), s.state = Mode.MONITOR →
      (tick s u b).state = Mode.EXPLORE →
      TRIGGER_THRESHOLD < u ∧
      max ((s.baselineBrightness.getD b) * (1/10)) 5 <
        |b - s.baselineBrightness.getD b|) ∧
    (∀ (s : LoopState) (u b : ℚ), s.state = Mode.MONITOR →
      ¬ (max ((s.baselineBrightness.getD b) * (1/10)) 5 <
        |b - s.baselineBrightness.getD b|) →
      (tick s u b).state = Mode.MONITOR) := by
  constructor
  · intro s u b hM hE
    simp only [tick, updateStateMachine, hM, if_true] at hE
    split_ifs at hE with h1 h2
    · exact h2
  · intro s u b hM hnc
    simp only [tick, updateStateMachine, hM, if_true]
    split_ifs with h1 h2
    · rfl
    · exact absurd h2.2 hnc
    · rfl

/-- C2 witness: from the initial state (no baseline, so the effective
baseline equals the current brightness and the difference is 0), a tick with
uncertainty 0.8 stays in MONITOR. -/
theorem C2_witness : (tick initState (8/10) 0).state = Mode.MONITOR :=
  C2_monitor_trigger.2 initState (8/10) 0 rfl (by norm_num [initState])

theorem dictInsert_ne_nil (l : List (ℕ × ℚ)) (k : ℕ) (v : ℚ) :
    dictInsert l k v ≠ [] := by
  unfold dictInsert
  split_ifs with h
  · intro hnil
    rw [List.map_eq_nil_iff.mp hnil] at h
    simp at h
  · simp

theorem monitor_skip_run (inputs : List (ℚ × ℚ)) : ∀ s : LoopState,
    s.state = Mode.MONITOR →
    s.frameCount + inputs.length < s.ignoreUntilFrame →
    runTicks s inputs = { s with frameCount := s.frameCount + inputs.length } := by
  induction inputs with
  | nil =>
    intro s hM h
    simp [runTicks]
  | cons p ps ih =>
    intro s hM h
    have hgate : s.frameCount + 1 < s.ignoreUntilFrame := by
      simp only [List.length_cons] at h
      omega
    have hskip : tick s p.1 p.2 = { s with frameCount := s.frameCount + 1 } := by
      simp only [tick, updateStateMachine, hM, if_true]
      rw [if_pos hgate]
    simp only [runTicks, List.foldl_cons]
    have hrec := ih { s with frameCount := s.frameCount + 1 }
      (by simpa using hM) (by simp only [List.length_cons] at h; simp; omega)
    simp only [runTicks] at hrec
    rw [hskip, hrec]
    simp only [List.length_cons]
    congr 1
    omega

/-- C4 (amended): when an EXPLORE sweep completes (the step after recording
reaches the action-space size 7), the tick resolves the ledger to a winner,
issues exactly one actuator command, namely the one for that winner, sets
`currentActionIndex` to it, clears the brightness baseline, sets
`ignoreUntilFrame = frameCount + 10` (the tick's own frame count), and
returns to MONITOR; MONITOR then skips all evaluation for the next 9 ticks
(every run of at most 9 subsequent ticks only advances the frame counter);
evaluation resumes on the 10th tick. -/
theorem C4_explore_completion (s : LoopState) (u b : ℚ)
    (hE : s.state = Mode.EXPLORE) (hstep : s.exploreStep = 6) :
    ∃ w, resolveLedger (dictInsert s.explorationResults 6 u) = some w ∧
      tickCommands s u = [w] ∧
      (tick s u b).state = Mode.MONITOR ∧
      (tick s u b).currentExposureIdx = w ∧
      (tick s u b).baselineBrightness = none ∧
      (tick s u b).frameCount = s.frameCount + 1 ∧
      (tick s u b).ignoreUntilFrame = (tick s u b).frameCount + 10 ∧
      ∀ inputs : List (ℚ × ℚ), inputs.length ≤ 9 →
        runTicks (tick s u b) inputs =
          { tick s u b with
            frameCount := (tick s u b).frameCount + inputs.length } := by
  obtain ⟨m, w, hmin, hw, hwmem, hwub⟩ :=
    resolveLedger_spec (dictInsert s.explorationResults 6 u)
      (dictInsert_ne_nil s.explorationResults 6 u)
  have hne : (dictInsert s.explorationResults 6 u).isEmpty = false := by
    rw [List.isEmpty_eq_false]
    exact dictInsert_ne_nil s.explorationResults 6 u
  have hsz : numExposureLevels ≤ 6 + 1 := by
    norm_num [numExposureLevels, exposureLevels]
  have htick : tick s u b =
      { s with
        state := Mode.MONITOR
        currentExposureIdx := w
        explorationResults := dictInsert s.explorationResults 6 u
        exploreStep := 7
        baselineBrightness := none
        frameCount := s.frameCount + 1
        ignoreUntilFrame := s.frameCount + 1 + 10 } := by
    simp only [tick, updateStateMachine, hstep]
    rw [if_neg (by simp [hE])]
    rw [if_pos hsz]
    simp only [applyBestAction, hne, Bool.false_eq_true, if_false, hw]
  have hcmd : tickCommands s u = [w] := by
    simp only [tickCommands, hstep]
    rw [if_neg (by simp [hE])]
    rw [if_pos hsz]
    simp only [hne, Bool.false_eq_true, if_false, hw]
  refine ⟨w, hw, hcmd, by rw [htick], by rw [htick], by rw [htick],
    by rw [htick], by rw [htick], ?_⟩
  intro inputs hlen
  apply monitor_skip_run
  · rw [htick]
  · rw [htick]
    simp only
    omega

/-- A concrete EXPLORE state about to finish its sweep: six scores recorded,
`explore_step = 6`, frame 9. -/
def c4ExploreState : LoopState :=
  ⟨Mode.EXPLORE, 2,
   [(0, 9/10), (1, 9/10), (2, 9/10), (3, 9/10), (4, 9/10), (5, 9/10)],
   6, none, 9, 0⟩

/-- The controller state right after the sweep-completing tick of
`c4ExploreState`: winner 6, frame 10, stabilization gate until frame 20. -/
def c4Post : LoopState :=
  ⟨Mode.MONITOR, 6,
   [(0, 9/10), (1, 9/10), (2, 9/10), (3, 9/10), (4, 9/10), (5, 9/10),
    (6, 9/10)],
   7, none, 10, 20⟩

theorem c4_resolve :
    resolveLedger
      [(0, (9:ℚ)/10), (1, 9/10), (2, 9/10), (3, 9/10), (4, 9/10), (5, 9/10),
       (6, 9/10)] = some 6 := by
  have hd : decide (|(9:ℚ)/10 - 9/10| < 1/100) = true := by
    rw [decide_eq_true_eq, sub_self, abs_zero]
    norm_num
  simp only [resolveLedger, List.map, optMin, List.foldl, min_self,
    List.filter, hd, optMaxNat]
  rfl

theorem c4_tick_eq : tick c4ExploreState (9/10) 100 = c4Post := by
  have hins : dictInsert
      [(0, (9:ℚ)/10), (1, 9/10), (2, 9/10), (3, 9/10), (4, 9/10), (5, 9/10)]
      6 (9/10) =
      [(0, (9:ℚ)/10), (1, 9/10), (2, 9/10), (3, 9/10), (4, 9/10), (5, 9/10),
       (6, 9/10)] := by
    simp [dictInsert]
  have hsz : numExposureLevels ≤ 6 + 1 := by
    norm_num [numExposureLevels, exposureLevels]
  simp only [tick, c4ExploreState, updateStateMachine]
  rw [if_neg (by simp)]
  simp only [hins]
  rw [if_pos hsz]
  simp only [applyBestAction, List.isEmpty, Bool.false_eq_true, if_false,
    c4_resolve, c4Post]

theorem c4_skip9 :
    runTicks c4Post (List.replicate 9 ((1:ℚ)/2, 100)) =
      { c4Post with frameCount := 19 } := by
  have h := monitor_skip_run (List.replicate 9 ((1:ℚ)/2, 100)) c4Post rfl
    (by simp [c4Post])
  simpa [c4Post] using h

/-- C4: the claim says MONITOR skips all evaluation for the next 10 ticks
after a sweep resolves.  False: with `ignoreUntilFrame = frameCount + 10`
and the strict `frame_count < ignore_until_frame` gate, only the next 9
ticks are skipped; the 10th tick after resolution already evaluates,
observable here because it captures a brightness baseline (`none` becomes
`some 100`). -/
theorem C4_counterexample :
    (runTicks (tick c4ExploreState (9/10) 100)
        (List.replicate 9 ((1:ℚ)/2, 100))).baselineBrightness = none ∧
    (runTicks (tick c4ExploreState (9/10) 100)
        (List.replicate 10 ((1:ℚ)/2, 100))).baselineBrightness = some 100 := by
  constructor
  · rw [c4_tick_eq, c4_skip9]
    rfl
  · rw [c4_tick_eq, show (10:ℕ) = 9 + 1 from rfl, List.replicate_succ',
      runTicks, List.foldl_append]
    have h9 : List.foldl (fun st p => tick st p.1 p.2) c4Post
        (List.replicate 9 ((1:ℚ)/2, 100)) = { c4Post with frameCount := 19 } := by
      have := c4_skip9
      simpa [runTicks] using this
    rw [h9]
    have hnt : ¬ (TRIGGER_THRESHOLD < (1:ℚ)/2 ∧
        max (((100:ℚ)) * (1/10)) 5 < |(100:ℚ) - 100|) := by
      intro hc
      have := hc.1
      norm_num [TRIGGER_THRESHOLD] at this
    simp only [List.foldl, tick, updateStateMachine, c4Post, if_true,
      Option.getD_none]
    rw [if_neg (show ¬ (19 + 1 < 20) by norm_num)]
    rw [if_neg hnt]

/-- C4 witness: the amended completion theorem at the concrete sweep-ending
state, projected to the stabilization-gate equation. -/
theorem C4_witness :
    (tick c4ExploreState (9/10) 100).ignoreUntilFrame =
      (tick c4ExploreState (9/10) 100).frameCount + 10 := by
  obtain ⟨w, _, _, _, _, _, _, hgate, _⟩ :=
    C4_explore_completion c4ExploreState (9/10) 100 rfl rfl
  exact hgate

theorem optMaxNat_mem (l : List ℕ) (w : ℕ) (h : optMaxNat l = some w) :
    w ∈ l := by
  match l with
  | [] => simp [optMaxNat] at h
  | x :: xs =>
    simp only [optMaxNat, Option.some.injEq] at h
    rw [← h]
    exact foldl_max_mem xs x

theorem resolveLedger_mem_keys (l : List (ℕ × ℚ)) (w : ℕ)
    (h : resolveLedger l = some w) : w ∈ l.map Prod.fst := by
  rw [resolveLedger] at h
  cases hmin : optMin (l.map Prod.snd) with
  | none =>
    rw [hmin] at h
    exact Option.noConfusion h
  | some m =>
    rw [hmin] at h
    obtain ⟨p, hp, hpe⟩ := List.mem_map.mp (optMaxNat_mem _ _ h)
    exact List.mem_map.mpr ⟨p, List.mem_of_mem_filter hp, hpe⟩

theorem dictInsert_key_mem (l : List (ℕ × ℚ)) (k : ℕ) (v : ℚ) :
    ∀ p ∈ dictInsert l k v, p.1 = k ∨ p ∈ l := by
  intro p hp
  unfold dictInsert at hp
  split_ifs at hp with h
  · obtain ⟨q, hq, hqe⟩ := List.mem_map.mp hp
    by_cases h2 : q.1 = k
    · left
      rw [← hqe, if_pos h2]
    · right
      rw [← hqe, if_neg h2]
      exact hq
  · rcases List.mem_append.mp hp with h1 | h1
    · right
      exact h1
    · left
      simp only [List.mem_singleton] at h1
      rw [h1]

/-- The reachability invariant behind C10: the exposure index is always a
valid action-space index, ledger keys are valid indices, and inside an
EXPLORE episode the step counter is a valid index. -/
def loopInv (s : LoopState) : Prop :=
  s.currentExposureIdx < numExposureLevels ∧
  (∀ p ∈ s.explorationResults, p.1 < numExposureLevels) ∧
  (s.state = Mode.EXPLORE → s.exploreStep < numExposureLevels)

theorem applyBestAction_idx (s : LoopState)
    (h : ∀ p ∈ s.explorationResults, p.1 < numExposureLevels)
    (hidx : s.currentExposureIdx < numExposureLevels) :
    (applyBestAction s).currentExposureIdx < numExposureLevels ∧
    (applyBestAction s).explorationResults = s.explorationResults := by
  unfold applyBestAction
  split_ifs with hne
  · exact ⟨hidx, rfl⟩
  · cases hres : resolveLedger s.explorationResults with
    | none =>
      simp only [hres]
      exact ⟨hidx, trivial⟩
    | some w =>
      simp only [hres]
      refine ⟨?_, trivial⟩
      obtain ⟨p, hp, hpe⟩ :=
        List.mem_map.mp (resolveLedger_mem_keys _ _ hres)
      rw [← hpe]
      exact h p hp

theorem tick_preserves_inv (s : LoopState) (u b : ℚ) (h : loopInv s) :
    loopInv (tick s u b) := by
  obtain ⟨hidx, hkeys, hstep⟩ := h
  have h0 : 0 < numExposureLevels := by
    norm_num [numExposureLevels, exposureLevels]
  by_cases hM : s.state = Mode.MONITOR
  · simp only [tick, updateStateMachine, hM, if_true]
    split_ifs with h1 h2
    · exact ⟨hidx, hkeys, fun hE => absurd hE (by simp)⟩
    · exact ⟨hidx, by simp, fun _ => h0⟩
    · exact ⟨hidx, hkeys, fun hE => absurd hE (by simp)⟩
  · have hE : s.state = Mode.EXPLORE := by
      cases hs : s.state
      · exact absurd hs hM
      · rfl
    have hstepN : s.exploreStep < numExposureLevels := hstep hE
    have hkeysIns : ∀ p ∈ dictInsert s.explorationResults s.exploreStep u,
        p.1 < numExposureLevels := by
      intro p hp
      rcases dictInsert_key_mem _ _ _ p hp with h1 | h1
      · rw [h1]; exact hstepN
      · exact hkeys p h1
    simp only [tick, updateStateMachine]
    rw [if_neg (by simp [hE])]
    split_ifs with h1
    · obtain ⟨ha, hb⟩ := applyBestAction_idx
        { s with
          explorationResults :=
            dictInsert s.explorationResults s.exploreStep u
          exploreStep := s.exploreStep + 1,
          frameCount := s.frameCount + 1 }
        (by simpa using hkeysIns) (by simpa using hidx)
      refine ⟨by simpa using ha, ?_, fun hE2 => absurd hE2 (by simp)⟩
      intro p hp
      simp only at hp
      rw [hb] at hp
      exact hkeysIns p (by simpa using hp)
    · refine ⟨by simpa using hidx, ?_, ?_⟩
      · intro p hp
        exact hkeysIns p (by simpa using hp)
      · intro _
        simp only
        omega

theorem runTicks_preserves_inv (inputs : List (ℚ × ℚ)) :
    ∀ s, loopInv s → loopInv (runTicks s inputs) := by
  induction inputs with
  | nil =>
    intro s h
    simpa [runTicks] using h
  | cons p ps ih =>
    intro s h
    simp only [runTicks, List.foldl_cons]
    have := ih (tick s p.1 p.2) (tick_preserves_inv s p.1 p.2 h)
    simpa [runTicks] using this

/-- C10: in every reachable controller state the current exposure index is a
valid action-space index: the action space has 7 entries, the index starts
at 2, and after any sequence of ticks from the initial state it stays below
7 (being a natural number it is also ≥ 0). -/
theorem C10_exposure_idx_in_range :
    numExposureLevels = 7 ∧
    initState.currentExposureIdx = 2 ∧
    ∀ inputs : List (ℚ × ℚ),
      (runTicks initState inputs).currentExposureIdx < numExposureLevels := by
  refine ⟨rfl, rfl, ?_⟩
  intro inputs
  have hinv : loopInv initState := by
    refine ⟨by norm_num [numExposureLevels, exposureLevels, initState], ?_, ?_⟩
    · intro p hp
      simp [initState] at hp
    · intro hE
      simp [initState] at hE
  exact (runTicks_preserves_inv inputs initState hinv).1
